import Mathlib

/-!
Shallow embedding of the FOSDEM schedule build pipeline
(`src/lib/fosdem.ts`, the repository's most complete revision, plus the
earlier revision's `buildData` where a claim compares the two).

Strings are modelled as Lean `String`s over their character lists; the
JavaScript string operations used by the source (`toLowerCase`,
`includes`, `startsWith`, `endsWith`, `substring`, `replace`) are embedded
as executable functions over `String.data`, restricted to the ASCII
behaviour the schedule data exercises.  JavaScript objects (string-keyed,
insertion ordered) are embedded as association lists, and JavaScript
`Set`s (insertion ordered, deduplicating) as duplicate-free lists.
-/

/-- `c.toLowerCase()` on a single code unit: ASCII `A`-`Z` shifted by 32. -/
def lowerChar (c : Char) : Char :=
  if 65 ≤ c.toNat && c.toNat ≤ 90 then Char.ofNat (c.toNat + 32) else c

/-- The regex class `[A-Z]` used by the building / chat-room heuristics. -/
def isUpperCh (c : Char) : Bool := 65 ≤ c.toNat && c.toNat ≤ 90

/-- The regex class `[0-9]` used by the floor heuristic. -/
def isDigitCh (c : Char) : Bool := 48 ≤ c.toNat && c.toNat ≤ 57

/-- The regex class `\s` (ASCII part), used by the track-key derivation. -/
def isSpaceCh (c : Char) : Bool :=
  c == ' ' || c == '\t' || c == '\n' || c == '\r' || c == '\x0b' || c == '\x0c'

/-- `s.toLowerCase()`. -/
def jsLower (s : String) : String := String.mk (s.data.map lowerChar)

/-- `s.includes(pat)`. -/
def jsIncludes (s pat : String) : Bool := decide (pat.data <:+: s.data)

/-- `s.startsWith(pre)`. -/
def jsStartsWith (s pre : String) : Bool := pre.data.isPrefixOf s.data

/-- `s.endsWith(suf)`. -/
def jsEndsWith (s suf : String) : Bool := suf.data.isSuffixOf s.data

/-- `s.substring(n)`. -/
def jsSubstrFrom (s : String) (n : Nat) : String := String.mk (s.data.drop n)

/-- `s.replace(/\./g, '')`. -/
def stripDots (s : String) : String := String.mk (s.data.filter (fun c => c != '.'))

/-- `s.replace(/\s/g, '')`. -/
def stripWs (s : String) : String := String.mk (s.data.filter (fun c => !isSpaceCh c))

/-- `s.replace(pat, repl)` with a nonempty string pattern: replaces the
first occurrence only. -/
def replaceFirstAux (pat repl : List Char) : List Char → List Char
  | [] => []
  | c :: cs =>
    if pat.isPrefixOf (c :: cs) then repl ++ (c :: cs).drop pat.length
    else c :: replaceFirstAux pat repl cs

/-- `s.replace(pat, repl)` (string pattern, first occurrence). -/
def jsReplaceFirst (s pat repl : String) : String :=
  String.mk (replaceFirstAux pat.data repl.data s.data)

/- Association-list operations modelling JavaScript object access. -/

/-- First-match lookup, `obj[k]`. -/
def lookupA {κ α : Type} [DecidableEq κ] : List (κ × α) → κ → Option α
  | [], _ => none
  | (k', v) :: rest, k => if k' = k then some v else lookupA rest k

/-- `obj[k] = v`: overwrite in place when the key exists, append otherwise. -/
def setA {κ α : Type} [DecidableEq κ] : List (κ × α) → κ → α → List (κ × α)
  | [], k, v => [(k, v)]
  | (k', v') :: rest, k, v =>
    if k' = k then (k, v) :: rest else (k', v') :: setA rest k v

/-- In-place mutation of the record stored at key `k` (no-op keys kept). -/
def updA {κ α : Type} [DecidableEq κ] : List (κ × α) → κ → (α → α) → List (κ × α)
  | [], _, _ => []
  | (k', v) :: rest, k, f =>
    if k' = k then (k', f v) :: updA rest k f else (k', v) :: updA rest k f

/-- `set.add(x)` on a JavaScript `Set` modelled as an insertion-ordered
duplicate-free list. -/
def addSet (s : List String) (x : String) : List String :=
  if s.contains x then s else s ++ [x]

/- Static reference tables (`src/constants.ts`). -/

/-- `constants.TYPES`, keys with their display names in declaration order. -/
def typeData : List (String × String) :=
  [("keynote", "Keynotes"), ("maintrack", "Main tracks"),
   ("devroom", "Developer rooms"), ("lightningtalk", "Lightning talks"),
   ("other", "Other")]

/-- `constants.BUILDINGS`, keys in declaration order. -/
def buildingKeys : List String := ["J", "H", "AW", "U", "K"]

/-- `constants.STREAM_LINK`. -/
def STREAM_LINK : String := "https://stream.fosdem.org/$\x7bROOM_ID\x7d.m3u8"

/-- `constants.CHAT_LINK`. -/
def CHAT_LINK : String := "https://chat.fosdem.org/#/room/#$\x7bROOM_ID\x7d:fosdem.org"

/- Input data model: the flattened day → room → event tree, with the
`_attributes` / `_text` wrappers of the compact XML encoding collapsed to
plain fields (`none` marks an absent node or absent text). -/

/-- A field that the source may carry as a single node or as an array. -/
inductive SingleOrMany (α : Type) where
  | one : α → SingleOrMany α
  | many : List α → SingleOrMany α
deriving DecidableEq

/-- `<link href=...>text</link>`. -/
structure XmlLink where
  href : String
  text : Option String
deriving DecidableEq

/-- `<attachment type=... href=...>text</attachment>`. -/
structure XmlAttachment where
  type : String
  href : String
  text : Option String
deriving DecidableEq

/-- One raw `<event>` node (fields the classifier reads). -/
structure XmlEvent where
  id : String
  guid : String
  title : Option String
  type : Option String
  track : Option String
  persons : Option (SingleOrMany String)
  links : Option (SingleOrMany XmlLink)
  attachments : Option (SingleOrMany XmlAttachment)
  url : Option String
  language : Option String
  feedback_url : Option String
  start : String
  duration : String
  subtitle : Option String
  abstract : Option String
  description : Option String
deriving DecidableEq

/-- One raw `<room>` node. -/
structure Room where
  name : String
  slug : String
  event : SingleOrMany XmlEvent
deriving DecidableEq

/-- One raw `<day>` node. -/
structure Day where
  index : Nat
  date : String
  start : String
  «end» : String
  room : List Room
deriving DecidableEq

/-- The flattened conference subtree (each field is the `?._text` of the
corresponding child node). -/
structure ConferenceXml where
  acronym : Option String
  title : Option String
  subtitle : Option String
  venue : Option String
  city : Option String
  start : Option String
  «end» : Option String
  day_change : Option String
  timeslot_duration : Option String
  time_zone_name : Option String
deriving DecidableEq

/- Output data model. -/

/-- The `Conference` interface. -/
structure Conference where
  acronym : Option String
  title : Option String
  subtitle : Option String
  venue : Option String
  city : Option String
  start : Option String
  «end» : Option String
  days : List String
  day_change : Option String
  timeslot_duration : Option String
  time_zone_name : Option String
deriving DecidableEq

/-- `ProcessedEvent['status']`. -/
inductive Status where
  | canceled | amendment | running | unknown
deriving DecidableEq

/-- The `Link` interface. -/
structure Link where
  href : String
  title : String
  type : Option String
deriving DecidableEq

/-- The `Attachment` interface. -/
structure Attachment where
  type : String
  href : String
  title : String
deriving DecidableEq

/-- The `Stream` interface (renamed: core Lean already declares `Stream`). -/
structure StreamEntry where
  href : String
  title : String
  type : String
deriving DecidableEq

/-- The `ProcessedEvent` interface. -/
structure ProcessedEvent where
  day : Nat
  isLive : Bool
  status : Status
  type : String
  track : String
  trackKey : String
  title : String
  persons : List String
  links : List Link
  attachments : List Attachment
  streams : List StreamEntry
  chat : Option String
  room : String
  url : Option String
  language : Option String
  feedbackUrl : Option String
  id : String
  startTime : String
  duration : String
  subtitle : Option String
  abstract : Option String
  description : Option String
deriving DecidableEq

/- Memoization in the source (`memoize`) caches a pure function and is
semantically the identity; the memoized helpers are embedded directly. -/

/-- `getRoomName`: annotate online rooms (`D.` naming convention). -/
def getRoomName (name : String) : String :=
  if jsStartsWith name "D." then name ++ " (online)" else name

/-- `getLinkType`: media type inferred from the href's file extension. -/
def getLinkType (url : String) : Option String :=
  if jsEndsWith url ".mp4" then some "video/mp4"
  else if jsEndsWith url ".webm" then some "video/webm"
  else none

/-- `getStatus`: case-insensitive substring scan of the title. -/
def getStatus (title : String) : Status :=
  let lowerTitle := jsLower title
  if jsIncludes lowerTitle "canceled" then .canceled
  else if jsIncludes lowerTitle "amendment" then .amendment
  else .running

/-- `EventProcessor.getType`, applied to the raw `event.type._text`. -/
def getType (type : String) : String :=
  if type = "lightning" then "lightningtalk"
  else if type = "lecture" then "keynote"
  else if (lookupA typeData type).isSome then type else "other"

/-- `EventProcessor.processPersons`. -/
def processPersons (persons : Option (SingleOrMany String)) : List String :=
  match persons with
  | none => []
  | some (.many ps) => ps
  | some (.one p) => [p]

/-- One link of `EventProcessor.processLinks`. -/
def processLink (l : XmlLink) : Link :=
  { href := l.href, title := l.text.getD "", type := getLinkType l.href }

/-- `EventProcessor.processLinks`. -/
def processLinks (links : Option (SingleOrMany XmlLink)) : List Link :=
  match links with
  | none => []
  | some (.many ls) => ls.map processLink
  | some (.one l) => [processLink l]

/-- One attachment of `EventProcessor.processAttachments`. -/
def processAttachment (a : XmlAttachment) : Attachment :=
  { type := a.type, href := a.href, title := a.text.getD "" }

/-- `EventProcessor.processAttachments`. -/
def processAttachments (attachments : Option (SingleOrMany XmlAttachment)) :
    List Attachment :=
  match attachments with
  | none => []
  | some (.many as) => as.map processAttachment
  | some (.one a) => [processAttachment a]

/-- `EventProcessor.buildStreamInfo`. -/
def buildStreamInfo (roomName : String) : List StreamEntry :=
  let isLiveRoom := !(["B.", "I.", "S."].any (fun p => jsStartsWith roomName p))
  if !isLiveRoom then []
  else [{ href := jsReplaceFirst STREAM_LINK "$\x7bROOM_ID\x7d" (stripDots (jsLower roomName)),
          title := "Stream", type := "application/vnd.apple.mpegurl" }]

/-- The test `/^[A-Z]\./.test(roomName)`. -/
def startsUpperDot (s : String) : Bool :=
  match s.data with
  | c :: d :: _ => isUpperCh c && d == '.'
  | _ => false

/-- `EventProcessor.buildChatInfo`. -/
def buildChatInfo (roomName : String) : Option String :=
  if startsUpperDot roomName then
    some (jsReplaceFirst CHAT_LINK "$\x7bROOM_ID\x7d" (jsSubstrFrom roomName 2))
  else none

/-- `EventProcessor.getTitle`: strip the 10-character amendment marker,
falling back to the original title when stripping leaves nothing. -/
def getTitle (title : String) (status : Status) : String :=
  if status = Status.amendment then
    let t := jsSubstrFrom title 10
    if t.isEmpty then title else t
  else title

/-- JavaScript truthiness of an optional text node (`!x?._text`). -/
def optTruthy : Option String → Bool
  | some s => !s.isEmpty
  | none => false

/-- `EventProcessor.processEvent`: the per-event classifier.  Returns
`none` exactly when the source returns `null` (excluded event). -/
def processEvent (event : XmlEvent) (isLive : Bool) (roomName : String)
    (day : Nat) : Option ProcessedEvent :=
  match event.title with
  | none => none
  | some title =>
    if title.isEmpty then none
    else
      let status := getStatus (jsLower title)
      if status = Status.canceled then none
      else if !optTruthy event.type || !optTruthy event.track then none
      else
        let ty := getType (event.type.getD "")
        let track := event.track.getD ""
        let trackKey := stripWs (jsLower track)
        if ty = "other" && track = "stand" then none
        else some
          { day := day
            isLive := isLive
            status := status
            type := ty
            track := track
            trackKey := trackKey
            title := getTitle title status
            persons := processPersons event.persons
            links := processLinks event.links
            attachments := processAttachments event.attachments
            streams := buildStreamInfo roomName
            chat := buildChatInfo roomName
            room := roomName
            url := event.url
            language := event.language
            feedbackUrl := event.feedback_url
            id := event.id
            startTime := event.start
            duration := event.duration
            subtitle := event.subtitle
            abstract := event.abstract
            description := event.description }

/- Aggregate table records (`BuildDataResult` and its row interfaces). -/

/-- The `BuildingStats` interface. -/
structure BuildingStats where
  name : String
  roomCount : Nat
  trackCount : Nat
  eventCount : Nat
deriving DecidableEq

/-- The `TypeInfo` interface, scratch `Set`s included. -/
structure TypeInfo where
  id : String
  name : String
  trackCount : Nat
  eventCount : Nat
  roomCount : Nat
  buildingCount : Nat
  rooms : List String
  buildings : List String
deriving DecidableEq

/-- `TypeInfo` after the final cleanup deleted its scratch sets. -/
structure TypeInfoOut where
  id : String
  name : String
  trackCount : Nat
  eventCount : Nat
  roomCount : Nat
  buildingCount : Nat
deriving DecidableEq

/-- The `DayInfo` interface, scratch `Set`s included. -/
structure DayInfo where
  date : String
  start : String
  «end» : String
  id : Nat
  name : String
  eventCount : Nat
  trackCount : Nat
  roomCount : Nat
  buildingCount : Nat
  rooms : List String
  buildings : List String
  tracks : List String
deriving DecidableEq

/-- `DayInfo` after the final cleanup deleted its scratch sets. -/
structure DayInfoOut where
  date : String
  start : String
  «end» : String
  id : Nat
  name : String
  eventCount : Nat
  trackCount : Nat
  roomCount : Nat
  buildingCount : Nat
deriving DecidableEq

/-- The `RoomInfo` interface (`building` stores the id of the static
building record when the inferred id is a known key, as the source stores
the record itself). -/
structure RoomInfo where
  name : String
  slug : String
  buildingId : String
  building : Option String
  floor : Option String
  eventCount : Nat
deriving DecidableEq

/-- The `TrackInfo` interface. -/
structure TrackInfo where
  id : String
  name : String
  type : String
  room : String
  day : List Nat
  eventCount : Nat
deriving DecidableEq

/-- The mutable `result` object while `processScheduleData` runs (the
`days` table still carries the scratch sets; they are deleted only during
the final cleanup). -/
structure AggState where
  types : List (String × TypeInfo)
  buildings : List (String × BuildingStats)
  days : List (Nat × DayInfo)
  rooms : List (String × RoomInfo)
  tracks : List (String × TrackInfo)
  events : List (String × ProcessedEvent)
deriving DecidableEq

/-- The returned `BuildDataResult` after cleanup. -/
structure BuildDataResult where
  conference : Conference
  types : List (String × TypeInfoOut)
  buildings : List (String × BuildingStats)
  days : List (Nat × DayInfoOut)
  rooms : List (String × RoomInfo)
  tracks : List (String × TrackInfo)
  events : List (String × ProcessedEvent)
deriving DecidableEq

/-- `roomName.match(/^(AW|[A-Z])/)`: the captured building id, `""` when
the regex does not match. -/
def inferBuildingId (s : String) : String :=
  if jsStartsWith s "AW" then "AW"
  else
    match s.data with
    | c :: _ => if isUpperCh c then String.mk [c] else ""
    | [] => ""

/-- `roomName.match(/^[A-Z]+\.?([0-9]+)/)`: the captured floor digits. -/
def inferFloor (s : String) : Option String :=
  let cs := s.data
  let ups := cs.takeWhile isUpperCh
  if ups.isEmpty then none
  else
    let rest := cs.drop ups.length
    let rest2 := match rest with
      | '.' :: r => r
      | r => r
    let digits := rest2.takeWhile isDigitCh
    if digits.isEmpty then none else some (String.mk digits)

/-- `Array.isArray(room.event) ? room.event : [room.event]`. -/
def normalizeEvents : SingleOrMany XmlEvent → List XmlEvent
  | .one e => [e]
  | .many l => l

/-- The track upsert performed for one accepted event (create on first
sight of the key, else append a novel day index; then increment the
count). -/
def trackStep (tracks : List (String × TrackInfo)) (ev : ProcessedEvent) :
    List (String × TrackInfo) :=
  let t1 := match lookupA tracks ev.trackKey with
    | none =>
      setA tracks ev.trackKey
        { id := ev.trackKey, name := ev.track, type := ev.type,
          room := ev.room, day := [ev.day], eventCount := 0 }
    | some ti =>
      if ti.day.contains ev.day then tracks
      else updA tracks ev.trackKey (fun t => { t with day := t.day ++ [ev.day] })
  updA t1 ev.trackKey (fun t => { t with eventCount := t.eventCount + 1 })

/-- The type-stats update for one accepted event (`eventCount++` plus the
two scratch-set inserts). -/
def typeBump (roomName buildingId : String) (t : TypeInfo) : TypeInfo :=
  { t with eventCount := t.eventCount + 1,
           rooms := addSet t.rooms roomName,
           buildings := addSet t.buildings buildingId }

/-- The body of `if (event) { ... }`: every table update performed for one
accepted event, in source order. -/
def applyEvent (roomName buildingId : String)
    (acc : AggState × DayInfo) (ev : ProcessedEvent) : AggState × DayInfo :=
  let st := acc.1
  let di := acc.2
  let st := { st with events := setA st.events ev.id ev }
  let st := { st with rooms := updA st.rooms roomName (fun r => { r with eventCount := r.eventCount + 1 }) }
  let di := { di with eventCount := di.eventCount + 1 }
  let st := { st with tracks := trackStep st.tracks ev }
  let st :=
    if (lookupA st.types ev.type).isSome then
      { st with types := updA st.types ev.type (typeBump roomName buildingId) }
    else st
  let di := { di with rooms := addSet di.rooms roomName,
                      buildings := addSet di.buildings buildingId,
                      tracks := addSet di.tracks ev.trackKey }
  (st, di)

/-- One iteration of the event loop. -/
def stepEvent (isLive : Bool) (roomName buildingId : String) (dayIndex : Nat)
    (acc : AggState × DayInfo) (xe : XmlEvent) : AggState × DayInfo :=
  match processEvent xe isLive roomName dayIndex with
  | none => acc
  | some ev => applyEvent roomName buildingId acc ev

/-- `if (!result.rooms[roomName]) { result.rooms[roomName] = ... }`: the
room record created on first sight of the (post-normalization) name. -/
def roomCreate (roomName slug : String) (st : AggState) : AggState :=
  if (lookupA st.rooms roomName).isSome then st
  else
    let buildingId := inferBuildingId roomName
    let newRoom : RoomInfo :=
      { name := roomName, slug := slug, buildingId := buildingId,
        building := if buildingKeys.contains buildingId then some buildingId else none,
        floor := inferFloor roomName, eventCount := 0 }
    { st with rooms := setA st.rooms roomName newRoom }

/-- The building-stats update run at the end of every room occurrence:
one extra room tally, plus the room's current cumulative event tally. -/
def buildingUpdate (roomName buildingId : String) (st : AggState) : AggState :=
  if (lookupA st.buildings buildingId).isSome then
    { st with buildings := updA st.buildings buildingId (fun b =>
        { b with roomCount := b.roomCount + 1,
                 eventCount := b.eventCount +
                   ((lookupA st.rooms roomName).map RoomInfo.eventCount).getD 0 }) }
  else st

/-- One iteration of the room loop: room-record creation, the event loop,
then the building-stats update. -/
def processRoom (dayIndex : Nat) (acc : AggState × DayInfo) (room : Room) :
    AggState × DayInfo :=
  let roomName := getRoomName room.name
  let buildingId := inferBuildingId roomName
  let st := roomCreate roomName room.slug acc.1
  let acc1 := (normalizeEvents room.event).foldl
      (stepEvent (dayIndex == 1) roomName buildingId dayIndex) (st, acc.2)
  (buildingUpdate roomName buildingId acc1.1, acc1.2)

/-- `recountType`: the per-day `type.roomCount / buildingCount /
trackCount` refresh run after every day. -/
def recountType (tracks : List (String × TrackInfo)) (ti : TypeInfo) : TypeInfo :=
  let ti1 := { ti with roomCount := ti.rooms.length,
                       buildingCount := ti.buildings.length }
  if tracks.length > 0 then
    { ti1 with trackCount := (tracks.filter (fun kv => kv.2.type = ti1.id)).length }
  else ti1

/-- The fresh `DayInfo` record created at the top of the day loop. -/
def dayInit (d : Day) : DayInfo :=
  { date := d.date, start := d.start, «end» := d.«end», id := d.index,
    name := "Day " ++ toString d.index, eventCount := 0, trackCount := 0,
    roomCount := 0, buildingCount := 0, rooms := [], buildings := [],
    tracks := [] }

/-- The guarded room loop of one day (`if (day.room?.length > 0)`). -/
def dayRoomsFold (st : AggState) (d : Day) : AggState × DayInfo :=
  if d.room.length > 0 then d.room.foldl (processRoom d.index) (st, dayInit d)
  else (st, dayInit d)

/-- `dayInfo.roomCount = dayInfo.rooms.size; ...`: the final day stats. -/
def finalizeDayInfo (di : DayInfo) : DayInfo :=
  { di with roomCount := di.rooms.length,
            buildingCount := di.buildings.length,
            trackCount := di.tracks.length }

/-- One iteration of the day loop. -/
def processDay (st : AggState) (day : Day) : AggState :=
  let acc := dayRoomsFold st day
  let st2 : AggState :=
    { acc.1 with days := setA acc.1.days day.index (finalizeDayInfo acc.2) }
  if st2.types.length > 0 then
    { st2 with types := st2.types.map (fun kv => (kv.1, recountType st2.tracks kv.2)) }
  else st2

/-- The initial `result` object with the statically seeded type and
building tables. -/
def initState : AggState :=
  { types := typeData.map (fun kv =>
      (kv.1, { id := kv.1, name := kv.2, trackCount := 0, eventCount := 0,
               roomCount := 0, buildingCount := 0, rooms := [], buildings := [] }))
    buildings := buildingKeys.map (fun k =>
      (k, { name := k, roomCount := 0, trackCount := 0, eventCount := 0 }))
    days := [], rooms := [], tracks := [], events := [] }

/-- The final cleanup's effect on a type record (`delete type.rooms;
delete type.buildings`). -/
def stripType (t : TypeInfo) : TypeInfoOut :=
  { id := t.id, name := t.name, trackCount := t.trackCount,
    eventCount := t.eventCount, roomCount := t.roomCount,
    buildingCount := t.buildingCount }

/-- The final cleanup's effect on a day record. -/
def stripDay (d : DayInfo) : DayInfoOut :=
  { date := d.date, start := d.start, «end» := d.«end», id := d.id,
    name := d.name, eventCount := d.eventCount, trackCount := d.trackCount,
    roomCount := d.roomCount, buildingCount := d.buildingCount }

/-- `processScheduleData`: the whole single-pass aggregation engine. -/
def processScheduleData (conference : Conference) (days : List Day) :
    BuildDataResult :=
  let st := days.foldl processDay initState
  { conference := conference
    types := st.types.map (fun kv => (kv.1, stripType kv.2))
    buildings := st.buildings
    days := st.days.map (fun kv => (kv.1, stripDay kv.2))
    rooms := st.rooms
    tracks := st.tracks
    events := st.events }

/-- The JavaScript `[x, y].filter(Boolean)` step of `flattenConference`:
keep present, non-empty strings. -/
def jsFilterBoolean : List (Option String) → List String
  | [] => []
  | some s :: rest => if s.isEmpty then jsFilterBoolean rest else s :: jsFilterBoolean rest
  | none :: rest => jsFilterBoolean rest

/-- `flattenConference`: the conference metadata extractor of the latest
revision (`src/lib/fosdem.ts`). -/
def flattenConference (c : ConferenceXml) : Conference :=
  { acronym := c.acronym, title := c.title, subtitle := c.subtitle,
    venue := c.venue, city := c.city, start := c.start, «end» := c.«end»,
    days := jsFilterBoolean [c.start, c.«end»],
    day_change := c.day_change, timeslot_duration := c.timeslot_duration,
    time_zone_name := c.time_zone_name }

/-- The `days` derivation of the earlier revision's `buildData`
(`data.day.map((day) => day._attributes.date)`): one calendar date per
`Day` subtree. -/
def dayDates (days : List Day) : List String := days.map Day.date

/- The raw value-tree flattener (`flattenData`). -/

/-- The plain nested value tree `flattenData` operates on: a scalar, an
ordered sequence, or a string-keyed mapping. -/
inductive RawNode where
  | scalar : String → RawNode
  | seq : List RawNode → RawNode
  | map : List (String × RawNode) → RawNode

mutual

/-- `flattenData`: sequences map recursively, a mapping whose single key
is the marker `value` unwraps (returning the stored value as-is), any
other mapping maps every entry recursively, scalars pass through. -/
def flattenData : RawNode → RawNode
  | .scalar s => .scalar s
  | .seq xs => .seq (flattenSeq xs)
  | .map [("value", v)] => v
  | .map kvs => .map (flattenMap kvs)

/-- `element.map(flattenData)` on a sequence. -/
def flattenSeq : List RawNode → List RawNode
  | [] => []
  | x :: xs => flattenData x :: flattenSeq xs

/-- The key loop of `flattenData` on a mapping. -/
def flattenMap : List (String × RawNode) → List (String × RawNode)
  | [] => []
  | (k, v) :: kvs => (k, flattenData v) :: flattenMap kvs

/- Fixtures used by witnesses and counterexamples. -/

/-- An event node with the fields the classifier gates on. -/
def evtFixture (id title ty track : String) : XmlEvent :=
  { id := id, guid := id ++ "-g", title := some title, type := some ty,
    track := some track, persons := none, links := none, attachments := none,
    url := none, language := none, feedback_url := none, start := "09:00",
    duration := "00:25", subtitle := none, abstract := none, description := none }

/-- A conference record fixture. -/
def confFixture : Conference :=
  { acronym := some "fosdem-2025", title := some "FOSDEM 2025", subtitle := none,
    venue := none, city := none, start := some "2025-02-01",
    «end» := some "2025-02-02", days := ["2025-02-01", "2025-02-02"],
    day_change := none, timeslot_duration := none, time_zone_name := none }

/-- A two-day document whose single room `J.1.2` hosts one accepted event
on each day. -/
def twoDayDoc : List Day :=
  [{ index := 1, date := "2025-02-01", start := "09:00", «end» := "18:00",
     room := [{ name := "J.1.2", slug := "j12",
                event := .many [evtFixture "e1" "Talk one" "devroom" "Go"] }] },
   { index := 2, date := "2025-02-02", start := "09:00", «end» := "18:00",
     room := [{ name := "J.1.2", slug := "j12",
                event := .many [evtFixture "e2" "Talk two" "devroom" "Go"] }] }]

/- C1: the `days` field of the extracted conference metadata. -/

/-- A three-day conference subtree whose start/end dates bracket a middle
day. -/
def cXml3 : ConferenceXml :=
  { acronym := some "fosdem-2025", title := some "FOSDEM 2025", subtitle := none,
    venue := some "ULB", city := some "Brussels", start := some "2025-02-01",
    «end» := some "2025-02-03", day_change := none, timeslot_duration := none,
    time_zone_name := none }

/-- Three `Day` subtrees with consecutive dates (no rooms needed). -/
def days3 : List Day :=
  [{ index := 1, date := "2025-02-01", start := "09:00", «end» := "18:00", room := [] },
   { index := 2, date := "2025-02-02", start := "09:00", «end» := "18:00", room := [] },
   { index := 3, date := "2025-02-03", start := "09:00", «end» := "18:00", room := [] }]

/-- The processed form of the `Welcome` keynote fixture in room `J.1.2`. -/
def peWelcome : ProcessedEvent :=
  { day := 1, isLive := true, status := .running, type := "keynote",
    track := "Main", trackKey := "main", title := "Welcome", persons := [],
    links := [], attachments := [], streams :=
      [{ href := "https://stream.fosdem.org/j12.m3u8", title := "Stream",
         type := "application/vnd.apple.mpegurl" }],
    chat := some "https://chat.fosdem.org/#/room/#1.2:fosdem.org",
    room := "J.1.2", url := none, language := none, feedbackUrl := none,
    id := "e1", startTime := "09:00", duration := "00:25", subtitle := none,
    abstract := none, description := none }

/- C4: canceled events never reach the output and change nothing. -/

/-- Whether an event's raw title text contains `canceled`
(case-insensitively); missing titles do not count. -/
def canceledTitle (xe : XmlEvent) : Bool :=
  match xe.title with
  | some t => jsIncludes (jsLower t) "canceled"
  | none => false

/-- Remove the canceled events of one room. -/
def filterCanceledRoom (r : Room) : Room :=
  { r with event := .many ((normalizeEvents r.event).filter (fun e => !canceledTitle e)) }

/-- Remove the canceled events of one day. -/
def filterCanceledDay (d : Day) : Day :=
  { d with room := d.room.map filterCanceledRoom }

/-- The table keyed by event id only ever holds titles free of
`canceled`. -/
def eventsGood (m : List (String × ProcessedEvent)) : Prop :=
  ∀ k ev, lookupA m k = some ev → jsIncludes (jsLower ev.title) "canceled" = false

/- C8: characterization of the track table. -/

/-- One step of the first-seen day-list accumulation
(`if (!day.includes(i)) day.push(i)`). -/
def trackStepDay (acc : List Nat) (d : Nat) : List Nat :=
  if acc.contains d then acc else acc ++ [d]

/-- First-seen-order deduplication of a list of day indices. -/
def dedupFS (l : List Nat) : List Nat := l.foldl trackStepDay []

/-- The value the track table is expected to hold for key `k`, as a
function of the accepted events carrying that key, in processing order. -/
def trackSpec (k : String) : List ProcessedEvent → Option TrackInfo
  | [] => none
  | e0 :: rest =>
    some { id := k, name := e0.track, type := e0.type, room := e0.room,
           day := dedupFS ((e0 :: rest).map ProcessedEvent.day),
           eventCount := (e0 :: rest).length }

/-- The accepted (classifier-passing) events of one room, in order. -/
def acceptedOfRoom (i : Nat) (r : Room) : List ProcessedEvent :=
  (normalizeEvents r.event).filterMap
    (fun xe => processEvent xe (i == 1) (getRoomName r.name) i)

/-- The accepted events of one day, in room order. -/
def acceptedOfDay (d : Day) : List ProcessedEvent :=
  d.room.flatMap (acceptedOfRoom d.index)

/-- The accepted events of the whole document, in traversal order. -/
def acceptedEvents (days : List Day) : List ProcessedEvent :=
  days.flatMap acceptedOfDay

/-- The Track record the two-day fixture builds for key `go`. -/
def goTrack : TrackInfo :=
  { id := "go", name := "Go", type := "devroom", room := "J.1.2",
    day := [1, 2], eventCount := 2 }

/- C10: rooms whose name does not start with an uppercase letter get the
empty-string building id, which the day / session-type dedup sets count as
one distinct building. -/

/-- Whether a string begins with an ASCII uppercase letter. -/
def headIsUpper (s : String) : Bool :=
  match s.data.head? with
  | some c => isUpperCh c
  | none => false

/-- A room whose name starts with a lowercase letter. -/
def lcRoom : Room :=
  { name := "j1", slug := "j1",
    event := .many [evtFixture "e7" "Some talk" "devroom" "Go"] }

/-- A one-day document holding only the lowercase-named room. -/
def lcDay : Day :=
  { index := 1, date := "2025-02-01", start := "09:00", «end» := "18:00",
    room := [lcRoom] }

/-- The processed form of the event hosted in the lowercase-named room. -/
def peLower : ProcessedEvent :=
  { day := 1, isLive := true, status := .running, type := "devroom",
    track := "Go", trackKey := "go", title := "Some talk", persons := [],
    links := [], attachments := [], streams :=
      [{ href := "https://stream.fosdem.org/j1.m3u8", title := "Stream",
         type := "application/vnd.apple.mpegurl" }],
    chat := none, room := "j1", url := none, language := none,
    feedbackUrl := none, id := "e7", startTime := "09:00",
    duration := "00:25", subtitle := none, abstract := none,
    description := none }

end

/- Generic lemmas about the association-list and set operations. -/

theorem lookupA_setA_self {κ α : Type} [DecidableEq κ] (m : List (κ × α)) (k : κ) (v : α) :
    lookupA (setA m k v) k = some v := by
  induction m with
  | nil => simp [setA, lookupA]
  | cons kv rest ih =>
    obtain ⟨k', v'⟩ := kv
    by_cases h : k' = k
    · simp [setA, h, lookupA]
    · simp [setA, h, lookupA, ih]

theorem lookupA_setA_ne {κ α : Type} [DecidableEq κ] (m : List (κ × α)) (k k' : κ) (v : α)
    (h : k' ≠ k) : lookupA (setA m k v) k' = lookupA m k' := by
  induction m with
  | nil => simp [setA, lookupA, Ne.symm h]
  | cons kv rest ih =>
    obtain ⟨k'', v''⟩ := kv
    by_cases h2 : k'' = k
    · subst h2
      simp [setA, lookupA, Ne.symm h]
    · simp only [setA, if_neg h2, lookupA]
      by_cases h3 : k'' = k'
      · simp [h3]
      · simp [h3, ih]

theorem lookupA_updA {κ α : Type} [DecidableEq κ] (m : List (κ × α)) (k k' : κ) (f : α → α) :
    lookupA (updA m k f) k' =
      if k' = k then (lookupA m k').map f else lookupA m k' := by
  induction m with
  | nil => simp [updA, lookupA]
  | cons kv rest ih =>
    obtain ⟨k'', v''⟩ := kv
    by_cases h2 : k'' = k
    · subst h2
      by_cases h3 : k'' = k'
      · subst h3
        simp [updA, lookupA, ih]
      · have h4 : ¬ (k' = k'') := fun hh => h3 hh.symm
        simp [updA, lookupA, h3, h4, ih]
    · by_cases h3 : k'' = k'
      · subst h3
        simp [updA, lookupA, h2, ih, Ne.symm h2]
      · have h4 : ¬ (k' = k'') := fun hh => h3 hh.symm
        simp [updA, lookupA, h2, h3, ih]

theorem updA_map_fst {κ α : Type} [DecidableEq κ] (m : List (κ × α)) (k : κ) (f : α → α) :
    (updA m k f).map Prod.fst = m.map Prod.fst := by
  induction m with
  | nil => rfl
  | cons kv rest ih =>
    obtain ⟨k'', v''⟩ := kv
    by_cases h : k'' = k
    · simp [updA, h, ih]
    · simp [updA, h, ih]

theorem mapval_map_fst {κ α : Type} (m : List (κ × α)) (f : κ → α → α) :
    (m.map (fun kv => (kv.1, f kv.1 kv.2))).map Prod.fst = m.map Prod.fst := by
  induction m with
  | nil => rfl
  | cons kv rest ih =>
    simp [ih]

theorem lookupA_mapval {κ α : Type} [DecidableEq κ] (m : List (κ × α)) (f : α → α) (k : κ) :
    lookupA (m.map (fun kv => (kv.1, f kv.2))) k = (lookupA m k).map f := by
  induction m with
  | nil => rfl
  | cons kv rest ih =>
    obtain ⟨k'', v''⟩ := kv
    by_cases h : k'' = k
    · simp [lookupA, h]
    · simp [lookupA, h, ih]

theorem lookupA_isSome_iff_contains {α : Type} (m : List (String × α)) (k : String) :
    (lookupA m k).isSome = (m.map Prod.fst).contains k := by
  induction m with
  | nil => simp [lookupA]
  | cons kv rest ih =>
    by_cases h : kv.1 = k
    · simp [lookupA, h]
    · simp only [lookupA, if_neg h, List.map_cons, List.contains_cons, ih]
      have hb : (k == kv.1) = false := by
        simp only [beq_eq_false_iff_ne, ne_eq]
        exact fun hh => h hh.symm
      simp [hb]

theorem mem_addSet_self (s : List String) (x : String) : x ∈ addSet s x := by
  unfold addSet
  by_cases h : x ∈ s <;> simp [h]

theorem mem_addSet_of_mem (s : List String) (x y : String) (h : x ∈ s) : x ∈ addSet s y := by
  unfold addSet
  by_cases h2 : y ∈ s <;> simp [h2, h]

/- C6 and its supporting fact. -/

/-- C6: the resolved session type is `lightningtalk` for raw type
`lightning`, `keynote` for raw type `lecture`, the raw type itself when it
is a key of the static taxonomy, and `other` in every other case. -/
theorem getType_resolution (t : String) :
    getType t =
      if t = "lightning" then "lightningtalk"
      else if t = "lecture" then "keynote"
      else if (typeData.map Prod.fst).contains t then t
      else "other" := by
  unfold getType
  rw [lookupA_isSome_iff_contains]

/- The flattener's unfolding lemmas. -/

theorem flattenSeq_eq (xs : List RawNode) : flattenSeq xs = xs.map flattenData := by
  induction xs with
  | nil => rfl
  | cons x xs ih => rw [flattenSeq, List.map_cons, ih]

theorem flattenMap_eq (kvs : List (String × RawNode)) :
    flattenMap kvs = kvs.map (fun kv => (kv.1, flattenData kv.2)) := by
  induction kvs with
  | nil => rfl
  | cons kv rest ih =>
    obtain ⟨k, v⟩ := kv
    rw [flattenMap, List.map_cons, ih]

theorem flattenData_map_general (kvs : List (String × RawNode))
    (h : ∀ v, kvs ≠ [("value", v)]) :
    flattenData (.map kvs) = .map (kvs.map (fun kv => (kv.1, flattenData kv.2))) := by
  rw [← flattenMap_eq, flattenData.eq_def]
  split
  · rename_i heq
    exact absurd heq (by simp)
  · rename_i heq
    exact absurd heq (by simp)
  · rename_i v' heq
    injection heq with h1
    exact absurd h1 (h v')
  · rename_i heq
    injection heq with h1
    rw [h1]

/-- C3 counterexample: the flattener does NOT flatten the payload of a
`value` wrapper — a nested wrapper survives one level of unwrapping, so
`flatten ({value: {value: x}})` differs from `flatten ({value: x})`. -/
theorem flattenData_value_payload_not_flattened :
    flattenData (.map [("value", .map [("value", .scalar "x")])]) ≠
      flattenData (.map [("value", .scalar "x")]) := by
  intro h
  rw [show flattenData (.map [("value", .map [("value", .scalar "x")])])
        = .map [("value", .scalar "x")] from rfl,
      show flattenData (.map [("value", .scalar "x")]) = .scalar "x" from rfl] at h
  exact RawNode.noConfusion h

/-- C3 (amended): the flattener maps sequences and general mappings
recursively and leaves scalars unchanged, but a mapping whose single key
is the marker `value` unwraps to the stored value AS-IS (not to its
flattened value); the function is total by construction. -/
theorem flattenData_spec :
    (∀ s, flattenData (.scalar s) = .scalar s) ∧
    (∀ xs, flattenData (.seq xs) = .seq (xs.map flattenData)) ∧
    (∀ v, flattenData (.map [("value", v)]) = v) ∧
    (∀ kvs, (∀ v, kvs ≠ [("value", v)]) →
      flattenData (.map kvs) = .map (kvs.map (fun kv => (kv.1, flattenData kv.2)))) := by
  refine ⟨fun s => rfl, fun xs => ?_, fun v => rfl, flattenData_map_general⟩
  rw [flattenData, flattenSeq_eq]

/-- C3 witness: the general-mapping clause applied to a concrete
two-entry mapping. -/
theorem flattenData_spec_witness :
    flattenData (.map [("a", .scalar "x"), ("b", .scalar "y")]) =
      .map ([("a", RawNode.scalar "x"), ("b", RawNode.scalar "y")].map
        (fun kv => (kv.1, flattenData kv.2))) :=
  flattenData_spec.2.2.2 [("a", .scalar "x"), ("b", .scalar "y")]
    (fun _ hv => List.cons_ne_nil _ _ (List.cons.inj hv).2)

/- C9: determinism of the aggregation. -/

/-- C9: the aggregation engine is a pure function of the flattened input;
two runs on identical input produce identical output structures (tables,
counters, and all list orderings included). -/
theorem processScheduleData_deterministic (conf₁ conf₂ : Conference)
    (days₁ days₂ : List Day) (hc : conf₁ = conf₂) (hd : days₁ = days₂) :
    processScheduleData conf₁ days₁ = processScheduleData conf₂ days₂ := by
  subst hc
  subst hd
  rfl

/-- C9 witness: two runs on the concrete two-day document coincide. -/
theorem processScheduleData_deterministic_witness :
    processScheduleData confFixture twoDayDoc = processScheduleData confFixture twoDayDoc :=
  processScheduleData_deterministic confFixture confFixture twoDayDoc twoDayDoc rfl rfl

/-- C1 counterexample: on a three-day document the `days` field produced
by the metadata extractor is the start/end pair, not the list of calendar
dates of the `Day` subtrees. -/
theorem conference_days_not_day_dates :
    (processScheduleData (flattenConference cXml3) days3).conference.days ≠
      dayDates days3 := by decide

theorem jsFilterBoolean_eq (l : List (Option String)) :
    jsFilterBoolean l = (l.filterMap id).filter (fun s => !s.isEmpty) := by
  induction l with
  | nil => rfl
  | cons o rest ih =>
    cases o with
    | none => simp [jsFilterBoolean, ih]
    | some s => by_cases h : s.isEmpty <;> simp [jsFilterBoolean, h, ih]

/-- C1 (amended): the `days` field equals the conference-level start/end
pair with absent or empty entries dropped (`[start, end].filter(Boolean)`),
not the list of `Day` subtree dates. -/
theorem flattenConference_days_start_end (c : ConferenceXml) :
    (flattenConference c).days =
      ([c.start, c.«end»].filterMap id).filter (fun s => !s.isEmpty) := by
  rw [show (flattenConference c).days = jsFilterBoolean [c.start, c.«end»] from rfl,
     jsFilterBoolean_eq]

/- C2: the building room/event counters. -/

/-- C2 failing input, evaluated: the document `twoDayDoc` creates exactly
one Room record and two accepted events in building `J`, yet the recorded
building stats say `roomCount = 2` and `eventCount = 3` (the per-day room
loop increments `roomCount` on every occurrence and re-adds the room's
cumulative event tally each day). -/
theorem building_stats_double_count :
    ((processScheduleData confFixture twoDayDoc).rooms.map Prod.fst = ["J.1.2"]) ∧
    ((processScheduleData confFixture twoDayDoc).events.map Prod.fst = ["e1", "e2"]) ∧
    ((lookupA (processScheduleData confFixture twoDayDoc).buildings "J").map
        BuildingStats.roomCount = some 2) ∧
    ((lookupA (processScheduleData confFixture twoDayDoc).buildings "J").map
        BuildingStats.eventCount = some 3) := by decide

/- Inversion facts about the per-event classifier. -/

theorem processEvent_inv (xe : XmlEvent) (isLive : Bool) (roomName : String)
    (d : Nat) (pe : ProcessedEvent)
    (h : processEvent xe isLive roomName d = some pe) :
    pe.room = roomName ∧ pe.day = d ∧
    pe.streams = buildStreamInfo roomName ∧ pe.chat = buildChatInfo roomName ∧
    pe.trackKey = stripWs (jsLower pe.track) ∧
    ∃ t, xe.title = some t ∧ t.isEmpty = false ∧
      pe.status = getStatus (jsLower t) ∧ pe.status ≠ Status.canceled ∧
      pe.title = getTitle t pe.status := by
  unfold processEvent at h
  cases ht : xe.title with
  | none => rw [ht] at h; exact absurd h (by simp)
  | some t =>
    rw [ht] at h
    dsimp only at h
    by_cases he : t.isEmpty
    · rw [if_pos he] at h
      exact absurd h (by simp)
    · rw [if_neg he] at h
      by_cases hc : getStatus (jsLower t) = Status.canceled
      · rw [if_pos hc] at h
        exact absurd h (by simp)
      · rw [if_neg hc] at h
        by_cases hg : (!optTruthy xe.type || !optTruthy xe.track) = true
        · rw [if_pos hg] at h
          exact absurd h (by simp)
        · rw [if_neg hg] at h
          by_cases hs : (getType (xe.type.getD "") = "other" && xe.track.getD "" = "stand") = true
          · rw [if_pos hs] at h
            exact absurd h (by simp)
          · rw [if_neg hs] at h
            injection h with h1
            subst h1
            refine ⟨rfl, rfl, rfl, rfl, rfl, t, rfl, by simpa using he, rfl, hc, rfl⟩

theorem buildStreamInfo_eq (roomName : String) :
    buildStreamInfo roomName =
      if jsStartsWith roomName "B." || jsStartsWith roomName "I." || jsStartsWith roomName "S." then []
      else [{ href := jsReplaceFirst STREAM_LINK "$\x7bROOM_ID\x7d" (stripDots (jsLower roomName)),
              title := "Stream", type := "application/vnd.apple.mpegurl" }] := by
  unfold buildStreamInfo
  simp only [List.any_cons, List.any_nil, Bool.or_false, Bool.not_not, Bool.or_assoc]

/-- C7: for every accepted event, the streams list is empty exactly when
the room name starts with `B.`, `I.` or `S.`; otherwise it is the single
entry whose link substitutes the lower-cased, dot-stripped room name into
the stream template; and the chat link is non-null exactly when the room
name starts with an uppercase letter followed by a dot, in which case it
substitutes the room name minus its first two characters into the chat
template. -/
theorem stream_chat_derivation (xe : XmlEvent) (isLive : Bool)
    (roomName : String) (d : Nat) (pe : ProcessedEvent)
    (h : processEvent xe isLive roomName d = some pe) :
    (pe.streams = [] ↔
      (jsStartsWith roomName "B." || jsStartsWith roomName "I." ||
        jsStartsWith roomName "S.") = true) ∧
    ((jsStartsWith roomName "B." || jsStartsWith roomName "I." ||
        jsStartsWith roomName "S.") = false →
      pe.streams = [{ href := jsReplaceFirst STREAM_LINK "$\x7bROOM_ID\x7d"
                        (stripDots (jsLower roomName)),
                      title := "Stream",
                      type := "application/vnd.apple.mpegurl" }]) ∧
    ((pe.chat ≠ none) ↔ startsUpperDot roomName = true) ∧
    (startsUpperDot roomName = true →
      pe.chat = some (jsReplaceFirst CHAT_LINK "$\x7bROOM_ID\x7d"
        (jsSubstrFrom roomName 2))) := by
  obtain ⟨-, -, hstr, hchat, -, -⟩ := processEvent_inv xe isLive roomName d pe h
  rw [hstr, hchat, buildStreamInfo_eq]
  unfold buildChatInfo
  by_cases hb : (jsStartsWith roomName "B." || jsStartsWith roomName "I." ||
      jsStartsWith roomName "S.") = true <;>
    by_cases hu : startsUpperDot roomName = true <;>
      simp [hb, hu]

/-- C7 witness: the derivation applied to the `Welcome` keynote in room
`J.1.2`. -/
theorem stream_chat_derivation_witness :
    (peWelcome.streams = [] ↔
      (jsStartsWith "J.1.2" "B." || jsStartsWith "J.1.2" "I." ||
        jsStartsWith "J.1.2" "S.") = true) ∧
    ((jsStartsWith "J.1.2" "B." || jsStartsWith "J.1.2" "I." ||
        jsStartsWith "J.1.2" "S.") = false →
      peWelcome.streams = [{ href := jsReplaceFirst STREAM_LINK "$\x7bROOM_ID\x7d"
                               (stripDots (jsLower "J.1.2")),
                             title := "Stream",
                             type := "application/vnd.apple.mpegurl" }]) ∧
    ((peWelcome.chat ≠ none) ↔ startsUpperDot "J.1.2" = true) ∧
    (startsUpperDot "J.1.2" = true →
      peWelcome.chat = some (jsReplaceFirst CHAT_LINK "$\x7bROOM_ID\x7d"
        (jsSubstrFrom "J.1.2" 2))) :=
  stream_chat_derivation (evtFixture "e1" "Welcome" "lecture" "Main") true
    "J.1.2" 1 peWelcome (by decide)

/- Projection lemmas: which tables each aggregation step touches. -/

theorem applyEvent_fst_types (rn b : String) (acc : AggState × DayInfo) (ev : ProcessedEvent) :
    (applyEvent rn b acc ev).1.types =
      if (lookupA acc.1.types ev.type).isSome then
        updA acc.1.types ev.type (typeBump rn b)
      else acc.1.types := by
  unfold applyEvent
  dsimp only
  split <;> rfl

theorem applyEvent_fst_buildings (rn b : String) (acc : AggState × DayInfo) (ev : ProcessedEvent) :
    (applyEvent rn b acc ev).1.buildings = acc.1.buildings := by
  unfold applyEvent
  dsimp only
  split <;> rfl

theorem applyEvent_fst_tracks (rn b : String) (acc : AggState × DayInfo) (ev : ProcessedEvent) :
    (applyEvent rn b acc ev).1.tracks = trackStep acc.1.tracks ev := by
  unfold applyEvent
  dsimp only
  split <;> rfl

theorem applyEvent_fst_events (rn b : String) (acc : AggState × DayInfo) (ev : ProcessedEvent) :
    (applyEvent rn b acc ev).1.events = setA acc.1.events ev.id ev := by
  unfold applyEvent
  dsimp only
  split <;> rfl

theorem applyEvent_fst_days (rn b : String) (acc : AggState × DayInfo) (ev : ProcessedEvent) :
    (applyEvent rn b acc ev).1.days = acc.1.days := by
  unfold applyEvent
  dsimp only
  split <;> rfl

theorem applyEvent_snd (rn b : String) (acc : AggState × DayInfo) (ev : ProcessedEvent) :
    (applyEvent rn b acc ev).2 =
      { acc.2 with eventCount := acc.2.eventCount + 1,
                   rooms := addSet acc.2.rooms rn,
                   buildings := addSet acc.2.buildings b,
                   tracks := addSet acc.2.tracks ev.trackKey } := by
  unfold applyEvent
  dsimp only

theorem roomCreate_types (rn slug : String) (st : AggState) :
    (roomCreate rn slug st).types = st.types := by
  unfold roomCreate
  split <;> rfl

theorem roomCreate_buildings (rn slug : String) (st : AggState) :
    (roomCreate rn slug st).buildings = st.buildings := by
  unfold roomCreate
  split <;> rfl

theorem roomCreate_tracks (rn slug : String) (st : AggState) :
    (roomCreate rn slug st).tracks = st.tracks := by
  unfold roomCreate
  split <;> rfl

theorem roomCreate_events (rn slug : String) (st : AggState) :
    (roomCreate rn slug st).events = st.events := by
  unfold roomCreate
  split <;> rfl

theorem roomCreate_days (rn slug : String) (st : AggState) :
    (roomCreate rn slug st).days = st.days := by
  unfold roomCreate
  split <;> rfl

theorem buildingUpdate_types (rn b : String) (st : AggState) :
    (buildingUpdate rn b st).types = st.types := by
  unfold buildingUpdate
  split <;> rfl

theorem buildingUpdate_tracks (rn b : String) (st : AggState) :
    (buildingUpdate rn b st).tracks = st.tracks := by
  unfold buildingUpdate
  split <;> rfl

theorem buildingUpdate_events (rn b : String) (st : AggState) :
    (buildingUpdate rn b st).events = st.events := by
  unfold buildingUpdate
  split <;> rfl

theorem buildingUpdate_days (rn b : String) (st : AggState) :
    (buildingUpdate rn b st).days = st.days := by
  unfold buildingUpdate
  split <;> rfl

theorem buildingUpdate_buildings_fst (rn b : String) (st : AggState) :
    (buildingUpdate rn b st).buildings.map Prod.fst = st.buildings.map Prod.fst := by
  unfold buildingUpdate
  split
  · exact updA_map_fst st.buildings b _
  · rfl

/- The event loop leaves the building table untouched and preserves the
type-table key list. -/

theorem foldl_stepEvent_buildings (isLive : Bool) (rn b : String) (i : Nat)
    (l : List XmlEvent) (acc : AggState × DayInfo) :
    (l.foldl (stepEvent isLive rn b i) acc).1.buildings = acc.1.buildings := by
  induction l generalizing acc with
  | nil => rfl
  | cons x xs ih =>
    rw [List.foldl_cons, ih]
    unfold stepEvent
    cases processEvent x isLive rn i with
    | none => rfl
    | some ev => exact applyEvent_fst_buildings rn b acc ev

theorem updA_fst_congr {κ α : Type} [DecidableEq κ] (m : List (κ × α)) (k : κ) (f : α → α) :
    (updA m k f).map Prod.fst = m.map Prod.fst := updA_map_fst m k f

theorem foldl_stepEvent_types_fst (isLive : Bool) (rn b : String) (i : Nat)
    (l : List XmlEvent) (acc : AggState × DayInfo) :
    (l.foldl (stepEvent isLive rn b i) acc).1.types.map Prod.fst =
      acc.1.types.map Prod.fst := by
  induction l generalizing acc with
  | nil => rfl
  | cons x xs ih =>
    rw [List.foldl_cons, ih]
    unfold stepEvent
    cases processEvent x isLive rn i with
    | none => rfl
    | some ev =>
      rw [applyEvent_fst_types]
      split
      · exact updA_map_fst acc.1.types ev.type _
      · rfl

theorem processRoom_buildings_fst (i : Nat) (acc : AggState × DayInfo) (r : Room) :
    (processRoom i acc r).1.buildings.map Prod.fst = acc.1.buildings.map Prod.fst := by
  unfold processRoom
  dsimp only
  rw [buildingUpdate_buildings_fst, foldl_stepEvent_buildings, roomCreate_buildings]

theorem processRoom_types_fst (i : Nat) (acc : AggState × DayInfo) (r : Room) :
    (processRoom i acc r).1.types.map Prod.fst = acc.1.types.map Prod.fst := by
  unfold processRoom
  dsimp only
  rw [buildingUpdate_types, foldl_stepEvent_types_fst, roomCreate_types]

theorem foldl_processRoom_buildings_fst (i : Nat) (rs : List Room) (acc : AggState × DayInfo) :
    (rs.foldl (processRoom i) acc).1.buildings.map Prod.fst =
      acc.1.buildings.map Prod.fst := by
  induction rs generalizing acc with
  | nil => rfl
  | cons r rs ih =>
    rw [List.foldl_cons, ih, processRoom_buildings_fst]

theorem foldl_processRoom_types_fst (i : Nat) (rs : List Room) (acc : AggState × DayInfo) :
    (rs.foldl (processRoom i) acc).1.types.map Prod.fst =
      acc.1.types.map Prod.fst := by
  induction rs generalizing acc with
  | nil => rfl
  | cons r rs ih =>
    rw [List.foldl_cons, ih, processRoom_types_fst]

theorem mapval_g_map_fst {κ α : Type} (m : List (κ × α)) (g : α → α) :
    (m.map (fun kv => (kv.1, g kv.2))).map Prod.fst = m.map Prod.fst := by
  induction m with
  | nil => rfl
  | cons kv rest ih =>
    simp [ih]

theorem dayRoomsFold_buildings_fst (st : AggState) (d : Day) :
    (dayRoomsFold st d).1.buildings.map Prod.fst = st.buildings.map Prod.fst := by
  unfold dayRoomsFold
  split
  · exact foldl_processRoom_buildings_fst _ _ _
  · rfl

theorem dayRoomsFold_types_fst (st : AggState) (d : Day) :
    (dayRoomsFold st d).1.types.map Prod.fst = st.types.map Prod.fst := by
  unfold dayRoomsFold
  split
  · exact foldl_processRoom_types_fst _ _ _
  · rfl

theorem processDay_buildings_fst (st : AggState) (d : Day) :
    (processDay st d).buildings.map Prod.fst = st.buildings.map Prod.fst := by
  unfold processDay
  dsimp only
  split
  · exact dayRoomsFold_buildings_fst st d
  · exact dayRoomsFold_buildings_fst st d

theorem processDay_types_fst (st : AggState) (d : Day) :
    (processDay st d).types.map Prod.fst = st.types.map Prod.fst := by
  unfold processDay
  dsimp only
  split
  · rw [mapval_g_map_fst]
    exact dayRoomsFold_types_fst st d
  · exact dayRoomsFold_types_fst st d

theorem mapval_map_fst2 {κ α β : Type} (m : List (κ × α)) (g : α → β) :
    (m.map (fun kv => (kv.1, g kv.2))).map Prod.fst = m.map Prod.fst := by
  induction m with
  | nil => rfl
  | cons kv rest ih =>
    simp [ih]

theorem foldl_processDay_static_fst (ds : List Day) (st : AggState) :
    (ds.foldl processDay st).types.map Prod.fst = st.types.map Prod.fst ∧
    (ds.foldl processDay st).buildings.map Prod.fst = st.buildings.map Prod.fst := by
  induction ds generalizing st with
  | nil => exact ⟨rfl, rfl⟩
  | cons d ds ih =>
    rw [List.foldl_cons]
    obtain ⟨h1, h2⟩ := ih (processDay st d)
    exact ⟨h1.trans (processDay_types_fst st d),
           h2.trans (processDay_buildings_fst st d)⟩

/-- C5: for every input, the session-type table of the result has exactly
the five statically declared keys and the building table exactly its five
statically declared keys, in declaration order — aggregation never adds or
removes a key. -/
theorem static_tables_keys (conf : Conference) (days : List Day) :
    (processScheduleData conf days).types.map Prod.fst =
      ["keynote", "maintrack", "devroom", "lightningtalk", "other"] ∧
    (processScheduleData conf days).buildings.map Prod.fst =
      ["J", "H", "AW", "U", "K"] := by
  obtain ⟨h1, h2⟩ := foldl_processDay_static_fst days initState
  unfold processScheduleData
  dsimp only
  constructor
  · rw [mapval_map_fst2, h1]
    rfl
  · rw [h2]
    rfl

/- Facts about the embedded JavaScript string operations. -/

theorem toNat_ofNat_valid (n : Nat) (h : n.isValidChar) : (Char.ofNat n).toNat = n := by
  rw [Char.ofNat, dif_pos h]
  rfl

theorem lowerChar_not_upper (c : Char) :
    (65 ≤ (lowerChar c).toNat && (lowerChar c).toNat ≤ 90) = false := by
  unfold lowerChar
  by_cases h : (65 ≤ c.toNat && c.toNat ≤ 90) = true
  · simp only [h, if_pos]
    simp only [Bool.and_eq_true, decide_eq_true_eq] at h
    have hv : (c.toNat + 32).isValidChar := by
      left
      omega
    rw [toNat_ofNat_valid _ hv]
    simp only [Bool.and_eq_false_iff, decide_eq_false_iff_not]
    right
    omega
  · rw [if_neg h]
    exact Bool.eq_false_iff.mpr h

theorem lowerChar_idem (c : Char) : lowerChar (lowerChar c) = lowerChar c := by
  conv_lhs => rw [lowerChar]
  rw [lowerChar_not_upper]
  simp

theorem jsLower_idem (s : String) : jsLower (jsLower s) = jsLower s := by
  unfold jsLower
  rw [List.map_map]
  exact congrArg String.mk (List.map_congr_left (fun c _ => lowerChar_idem c))

theorem jsLower_data (s : String) : (jsLower s).data = s.data.map lowerChar := rfl

theorem jsIncludes_mono {s t pat : String} (hsub : s.data <:+: t.data)
    (h : jsIncludes s pat = true) : jsIncludes t pat = true := by
  unfold jsIncludes at h ⊢
  rw [decide_eq_true_eq] at h ⊢
  exact h.trans hsub

theorem jsIncludes_drop_false {s pat : String} (n : Nat)
    (h : jsIncludes s pat = false) :
    jsIncludes (String.mk (s.data.drop n)) pat = false := by
  by_cases h2 : jsIncludes (String.mk (s.data.drop n)) pat = true
  · rw [jsIncludes_mono ((List.drop_suffix n s.data).isInfix) h2] at h
    exact absurd h (by simp)
  · simpa using h2

theorem getStatus_canceled_of_title {t : String}
    (h : jsIncludes (jsLower t) "canceled" = true) :
    getStatus (jsLower t) = Status.canceled := by
  unfold getStatus
  dsimp only
  rw [jsLower_idem, h]
  rfl

theorem processEvent_none_of_canceled (xe : XmlEvent) (isLive : Bool)
    (rn : String) (d : Nat) (h : canceledTitle xe = true) :
    processEvent xe isLive rn d = none := by
  unfold canceledTitle at h
  cases ht : xe.title with
  | none => rw [ht] at h; exact absurd h (by simp)
  | some t =>
    rw [ht] at h
    have hne : t.isEmpty = false := by
      by_cases he : t.isEmpty = true
      · rw [(String.isEmpty_iff t).mp he] at h
        exact absurd h (by decide)
      · simpa using he
    unfold processEvent
    rw [ht]
    dsimp only
    rw [hne]
    simp only [Bool.false_eq_true, if_false]
    rw [if_pos (getStatus_canceled_of_title h)]

theorem foldl_stepEvent_filter_canceled (isLive : Bool) (rn b : String) (i : Nat)
    (l : List XmlEvent) (acc : AggState × DayInfo) :
    (l.filter (fun e => !canceledTitle e)).foldl (stepEvent isLive rn b i) acc =
      l.foldl (stepEvent isLive rn b i) acc := by
  induction l generalizing acc with
  | nil => rfl
  | cons x xs ih =>
    by_cases hc : canceledTitle x = true
    · rw [List.filter_cons_of_neg (by simp [hc]), List.foldl_cons,
          show stepEvent isLive rn b i acc x = acc from by
            unfold stepEvent
            rw [processEvent_none_of_canceled x isLive rn i hc],
          ih]
    · rw [List.filter_cons_of_pos (by simp [hc]), List.foldl_cons, List.foldl_cons, ih]

theorem processRoom_filter_canceled (i : Nat) (acc : AggState × DayInfo) (r : Room) :
    processRoom i acc (filterCanceledRoom r) = processRoom i acc r := by
  unfold processRoom filterCanceledRoom
  dsimp only
  rw [show normalizeEvents (.many ((normalizeEvents r.event).filter
        (fun e => !canceledTitle e))) =
      (normalizeEvents r.event).filter (fun e => !canceledTitle e) from rfl,
    foldl_stepEvent_filter_canceled]

theorem foldl_processRoom_filter_canceled (i : Nat) (rs : List Room)
    (acc : AggState × DayInfo) :
    (rs.map filterCanceledRoom).foldl (processRoom i) acc =
      rs.foldl (processRoom i) acc := by
  induction rs generalizing acc with
  | nil => rfl
  | cons r rs ih =>
    rw [List.map_cons, List.foldl_cons, List.foldl_cons,
        processRoom_filter_canceled, ih]

theorem dayRoomsFold_filter_canceled (st : AggState) (d : Day) :
    dayRoomsFold st (filterCanceledDay d) = dayRoomsFold st d := by
  unfold dayRoomsFold filterCanceledDay
  dsimp only
  rw [List.length_map]
  split
  · exact foldl_processRoom_filter_canceled d.index d.room (st, dayInit d)
  · rfl

theorem processDay_filter_canceled (st : AggState) (d : Day) :
    processDay st (filterCanceledDay d) = processDay st d := by
  unfold processDay
  dsimp only
  rw [dayRoomsFold_filter_canceled,
      show (filterCanceledDay d).index = d.index from rfl]

theorem foldl_processDay_filter_canceled (ds : List Day) (st : AggState) :
    (ds.map filterCanceledDay).foldl processDay st = ds.foldl processDay st := by
  induction ds generalizing st with
  | nil => rfl
  | cons d ds ih =>
    rw [List.map_cons, List.foldl_cons, List.foldl_cons,
        processDay_filter_canceled, ih]

theorem processEvent_title_good (xe : XmlEvent) (isLive : Bool) (rn : String)
    (d : Nat) (pe : ProcessedEvent) (h : processEvent xe isLive rn d = some pe) :
    jsIncludes (jsLower pe.title) "canceled" = false := by
  obtain ⟨-, -, -, -, -, t, ht, hne, hst, hnc, hti⟩ :=
    processEvent_inv xe isLive rn d pe h
  have hfalse : jsIncludes (jsLower t) "canceled" = false := by
    by_cases hc : jsIncludes (jsLower t) "canceled" = true
    · exact absurd (hst.trans (getStatus_canceled_of_title hc)) hnc
    · simpa using hc
  rw [hti]
  unfold getTitle
  split
  · dsimp only
    split
    · exact hfalse
    · rw [show jsLower (jsSubstrFrom t 10) = String.mk ((jsLower t).data.drop 10) from by
        unfold jsSubstrFrom jsLower
        simp [List.map_drop]]
      exact jsIncludes_drop_false 10 hfalse
  · exact hfalse

theorem eventsGood_setA {m : List (String × ProcessedEvent)} {k : String}
    {ev : ProcessedEvent} (hm : eventsGood m)
    (hv : jsIncludes (jsLower ev.title) "canceled" = false) :
    eventsGood (setA m k ev) := by
  intro k' ev' h'
  by_cases hk : k' = k
  · subst hk
    rw [lookupA_setA_self] at h'
    injection h' with h''
    rw [← h'']
    exact hv
  · rw [lookupA_setA_ne m k k' ev hk] at h'
    exact hm k' ev' h'

theorem foldl_stepEvent_eventsGood (isLive : Bool) (rn b : String) (i : Nat)
    (l : List XmlEvent) (acc : AggState × DayInfo)
    (hm : eventsGood acc.1.events) :
    eventsGood (l.foldl (stepEvent isLive rn b i) acc).1.events := by
  induction l generalizing acc with
  | nil => exact hm
  | cons x xs ih =>
    rw [List.foldl_cons]
    apply ih
    unfold stepEvent
    cases hp : processEvent x isLive rn i with
    | none => exact hm
    | some ev =>
      rw [applyEvent_fst_events]
      exact eventsGood_setA hm (processEvent_title_good x isLive rn i ev hp)

theorem processRoom_eventsGood (i : Nat) (acc : AggState × DayInfo) (r : Room)
    (hm : eventsGood acc.1.events) :
    eventsGood (processRoom i acc r).1.events := by
  unfold processRoom
  dsimp only
  rw [buildingUpdate_events]
  apply foldl_stepEvent_eventsGood
  rw [roomCreate_events]
  exact hm

theorem foldl_processRoom_eventsGood (i : Nat) (rs : List Room)
    (acc : AggState × DayInfo) (hm : eventsGood acc.1.events) :
    eventsGood (rs.foldl (processRoom i) acc).1.events := by
  induction rs generalizing acc with
  | nil => exact hm
  | cons r rs ih =>
    rw [List.foldl_cons]
    exact ih _ (processRoom_eventsGood i acc r hm)

theorem processDay_events (st : AggState) (d : Day) :
    (processDay st d).events = (dayRoomsFold st d).1.events := by
  unfold processDay
  dsimp only
  split <;> rfl

theorem processDay_eventsGood (st : AggState) (d : Day)
    (hm : eventsGood st.events) : eventsGood (processDay st d).events := by
  rw [processDay_events]
  unfold dayRoomsFold
  split
  · exact foldl_processRoom_eventsGood d.index d.room (st, dayInit d) hm
  · exact hm

theorem foldl_processDay_eventsGood (ds : List Day) (st : AggState)
    (hm : eventsGood st.events) : eventsGood (ds.foldl processDay st).events := by
  induction ds generalizing st with
  | nil => exact hm
  | cons d ds ih =>
    rw [List.foldl_cons]
    exact ih _ (processDay_eventsGood st d hm)

/-- C4: canceled events (title containing `canceled`, case-insensitively)
never appear in the output event table, and contribute to no aggregate:
deleting every canceled event from the input leaves the entire result —
all tables and counters — unchanged. -/
theorem canceled_events_excluded (conf : Conference) (days : List Day) :
    processScheduleData conf (days.map filterCanceledDay) =
      processScheduleData conf days ∧
    (∀ k ev, lookupA (processScheduleData conf days).events k = some ev →
      jsIncludes (jsLower ev.title) "canceled" = false) := by
  constructor
  · unfold processScheduleData
    rw [foldl_processDay_filter_canceled]
  · intro k ev h
    have hg : eventsGood (days.foldl processDay initState).events :=
      foldl_processDay_eventsGood days initState (fun k ev h => by
        exact absurd h (by simp [initState, lookupA]))
    exact hg k ev h

/-- C4 witness: a canceled event (`Session canceled`) alongside a running
event: filtering it away leaves the result unchanged, and the surviving
looked-up event's title is `canceled`-free. -/
theorem canceled_events_excluded_witness :
    lookupA (processScheduleData confFixture
        [{ index := 1, date := "2025-02-01", start := "09:00", «end» := "18:00",
           room := [{ name := "J.1.2", slug := "j12",
                      event := .many [evtFixture "e1" "Welcome" "lecture" "Main",
                                      evtFixture "e9" "Session canceled" "talk" "Main"] }] }]).events
      "e1" = some peWelcome ∧
    jsIncludes (jsLower peWelcome.title) "canceled" = false :=
  ⟨by decide,
   (canceled_events_excluded confFixture
      [{ index := 1, date := "2025-02-01", start := "09:00", «end» := "18:00",
         room := [{ name := "J.1.2", slug := "j12",
                    event := .many [evtFixture "e1" "Welcome" "lecture" "Main",
                                    evtFixture "e9" "Session canceled" "talk" "Main"] }] }]).2
     "e1" peWelcome (by decide)⟩

theorem foldl_stepEvent_tracks (isLive : Bool) (rn b : String) (i : Nat)
    (l : List XmlEvent) (acc : AggState × DayInfo) :
    (l.foldl (stepEvent isLive rn b i) acc).1.tracks =
      (l.filterMap (fun xe => processEvent xe isLive rn i)).foldl trackStep
        acc.1.tracks := by
  induction l generalizing acc with
  | nil => rfl
  | cons x xs ih =>
    rw [List.foldl_cons, ih, List.filterMap_cons]
    cases hp : processEvent x isLive rn i with
    | none =>
      rw [show stepEvent isLive rn b i acc x = acc from by
        unfold stepEvent
        rw [hp]]
    | some ev =>
      rw [List.foldl_cons,
          show (stepEvent isLive rn b i acc x).1.tracks = trackStep acc.1.tracks ev from by
            unfold stepEvent
            rw [hp]
            exact applyEvent_fst_tracks rn b acc ev]

theorem processRoom_tracks (i : Nat) (acc : AggState × DayInfo) (r : Room) :
    (processRoom i acc r).1.tracks =
      (acceptedOfRoom i r).foldl trackStep acc.1.tracks := by
  unfold processRoom acceptedOfRoom
  dsimp only
  rw [buildingUpdate_tracks, foldl_stepEvent_tracks, roomCreate_tracks]

theorem foldl_processRoom_tracks (i : Nat) (rs : List Room)
    (acc : AggState × DayInfo) :
    (rs.foldl (processRoom i) acc).1.tracks =
      (rs.flatMap (acceptedOfRoom i)).foldl trackStep acc.1.tracks := by
  induction rs generalizing acc with
  | nil => rfl
  | cons r rs ih =>
    rw [List.foldl_cons, ih, List.flatMap_cons, List.foldl_append,
        processRoom_tracks]

theorem processDay_tracks (st : AggState) (d : Day) :
    (processDay st d).tracks = (acceptedOfDay d).foldl trackStep st.tracks := by
  rw [show (processDay st d).tracks = (dayRoomsFold st d).1.tracks from by
    unfold processDay
    dsimp only
    split <;> rfl]
  unfold dayRoomsFold acceptedOfDay
  split
  · exact foldl_processRoom_tracks d.index d.room (st, dayInit d)
  · rename_i hlen
    have hnil : d.room = [] := List.eq_nil_of_length_eq_zero (by omega)
    rw [hnil]
    rfl

theorem foldl_processDay_tracks (ds : List Day) (st : AggState) :
    (ds.foldl processDay st).tracks =
      (ds.flatMap acceptedOfDay).foldl trackStep st.tracks := by
  induction ds generalizing st with
  | nil => rfl
  | cons d ds ih =>
    rw [List.foldl_cons, ih, List.flatMap_cons, List.foldl_append,
        processDay_tracks]

theorem processScheduleData_tracks (conf : Conference) (days : List Day) :
    (processScheduleData conf days).tracks =
      (acceptedEvents days).foldl trackStep [] := by
  unfold processScheduleData acceptedEvents
  dsimp only
  rw [foldl_processDay_tracks]
  rfl

theorem dedupFS_from_nodup (l : List Nat) (acc : List Nat) (h : acc.Nodup) :
    (l.foldl trackStepDay acc).Nodup := by
  induction l generalizing acc with
  | nil => exact h
  | cons d l ih =>
    rw [List.foldl_cons]
    apply ih
    unfold trackStepDay
    by_cases hc : acc.contains d
    · rw [if_pos hc]
      exact h
    · rw [if_neg hc, ← List.concat_eq_append]
      exact List.Nodup.concat (by simpa using hc) h

theorem dedupFS_nodup (l : List Nat) : (dedupFS l).Nodup :=
  dedupFS_from_nodup l [] List.nodup_nil

theorem dedupFS_append (l : List Nat) (d : Nat) :
    dedupFS (l ++ [d]) = trackStepDay (dedupFS l) d := by
  unfold dedupFS
  rw [List.foldl_append]
  rfl

theorem trackStep_lookup_ne (T : List (String × TrackInfo)) (e : ProcessedEvent)
    (k : String) (h : k ≠ e.trackKey) :
    lookupA (trackStep T e) k = lookupA T k := by
  unfold trackStep
  cases hl : lookupA T e.trackKey with
  | none =>
    dsimp only
    rw [lookupA_updA, if_neg h, lookupA_setA_ne _ _ _ _ h]
  | some ti =>
    dsimp only
    split
    · rw [lookupA_updA, if_neg h]
    · rw [lookupA_updA, if_neg h, lookupA_updA, if_neg h]

theorem trackStep_lookup_self (T : List (String × TrackInfo)) (e : ProcessedEvent) :
    lookupA (trackStep T e) e.trackKey =
      match lookupA T e.trackKey with
      | none => some { id := e.trackKey, name := e.track, type := e.type,
                       room := e.room, day := [e.day], eventCount := 1 }
      | some ti => some { ti with day := trackStepDay ti.day e.day,
                                  eventCount := ti.eventCount + 1 } := by
  unfold trackStep
  cases hl : lookupA T e.trackKey with
  | none =>
    dsimp only
    rw [lookupA_updA, if_pos rfl, lookupA_setA_self]
    rfl
  | some ti =>
    dsimp only
    unfold trackStepDay
    by_cases hc : ti.day.contains e.day
    · rw [if_pos hc, if_pos hc, lookupA_updA, if_pos rfl, hl]
      rfl
    · rw [if_neg hc, if_neg hc, lookupA_updA, if_pos rfl, lookupA_updA,
          if_pos rfl, hl]
      rfl

theorem trackFold_lookup (evs : List ProcessedEvent) (k : String) :
    lookupA (evs.foldl trackStep []) k =
      trackSpec k (evs.filter (fun e => e.trackKey == k)) := by
  induction evs using List.reverseRecOn with
  | nil => rfl
  | append_singleton evs e ih =>
    rw [List.foldl_append, List.foldl_cons, List.foldl_nil, List.filter_append]
    by_cases hk : (e.trackKey == k) = true
    · have hkeq : e.trackKey = k := by simpa using hk
      subst hkeq
      rw [show List.filter (fun x => x.trackKey == e.trackKey) [e] = [e] from by
            simp [List.filter],
          trackStep_lookup_self, ih]
      cases hfe : evs.filter (fun x => x.trackKey == e.trackKey) with
      | nil =>
        simp [trackSpec, dedupFS, trackStepDay]
      | cons e0 rest =>
        simp only [trackSpec, List.cons_append, List.map_cons, List.map_append,
                   List.map_nil, List.length_cons, List.length_append,
                   List.length_nil, Nat.zero_add]
        rw [show (e0.day :: (rest.map ProcessedEvent.day ++ [e.day]))
              = (e0.day :: rest.map ProcessedEvent.day) ++ [e.day] from rfl,
            dedupFS_append]
    · have hne : k ≠ e.trackKey := fun heq => by
        subst heq
        simp at hk
      rw [show List.filter (fun x => x.trackKey == k) [e] = [] from by
            simp [List.filter, hk],
          List.append_nil, trackStep_lookup_ne (evs.foldl trackStep []) e k hne,
          ih]

theorem mem_accepted_trackKey (days : List Day) (e : ProcessedEvent)
    (h : e ∈ acceptedEvents days) : e.trackKey = stripWs (jsLower e.track) := by
  unfold acceptedEvents at h
  rw [List.mem_flatMap] at h
  obtain ⟨d, -, hd⟩ := h
  unfold acceptedOfDay at hd
  rw [List.mem_flatMap] at hd
  obtain ⟨r, -, hr⟩ := hd
  unfold acceptedOfRoom at hr
  rw [List.mem_filterMap] at hr
  obtain ⟨xe, -, hxe⟩ := hr
  obtain ⟨-, -, -, -, htk, -⟩ := processEvent_inv _ _ _ _ _ hxe
  exact htk

/-- C8: every Track record holds the name/type/representative-room of the
first accepted event with its key (the raw track name lower-cased with all
whitespace removed), its day list is the duplicate-free first-seen-order
list of the day indices of those events, and its event count is their
number. -/
theorem track_table_characterization (conf : Conference) (days : List Day)
    (k : String) (ti : TrackInfo)
    (h : lookupA (processScheduleData conf days).tracks k = some ti) :
    ti.day.Nodup ∧
    ti.day = dedupFS (((acceptedEvents days).filter
        (fun e => stripWs (jsLower e.track) == k)).map ProcessedEvent.day) ∧
    (∃ e0, ((acceptedEvents days).filter
        (fun e => stripWs (jsLower e.track) == k)).head? = some e0 ∧
      ti.name = e0.track ∧ ti.type = e0.type ∧ ti.room = e0.room) ∧
    ti.eventCount = ((acceptedEvents days).filter
        (fun e => stripWs (jsLower e.track) == k)).length := by
  rw [processScheduleData_tracks, trackFold_lookup,
      List.filter_congr (fun e he => by
        rw [mem_accepted_trackKey days e he])] at h
  cases hfe : (acceptedEvents days).filter
      (fun e => stripWs (jsLower e.track) == k) with
  | nil =>
    rw [hfe] at h
    exact absurd h (by simp [trackSpec])
  | cons e0 rest =>
    rw [hfe] at h
    simp only [trackSpec] at h
    injection h with h1
    subst h1
    exact ⟨dedupFS_nodup _, rfl, ⟨e0, rfl, rfl, rfl, rfl⟩, rfl⟩

/-- C8 witness: the characterization applied to the `go` track of the
two-day fixture. -/
theorem track_table_characterization_witness :
    goTrack.day.Nodup ∧
    goTrack.day = dedupFS (((acceptedEvents twoDayDoc).filter
        (fun e => stripWs (jsLower e.track) == "go")).map ProcessedEvent.day) ∧
    (∃ e0, ((acceptedEvents twoDayDoc).filter
        (fun e => stripWs (jsLower e.track) == "go")).head? = some e0 ∧
      goTrack.name = e0.track ∧ goTrack.type = e0.type ∧ goTrack.room = e0.room) ∧
    goTrack.eventCount = ((acceptedEvents twoDayDoc).filter
        (fun e => stripWs (jsLower e.track) == "go")).length :=
  track_table_characterization confFixture twoDayDoc "go" goTrack (by decide)

theorem inferBuildingId_empty (s : String) (h : headIsUpper s = false) :
    inferBuildingId s = "" := by
  unfold headIsUpper at h
  unfold inferBuildingId
  cases hd : s.data with
  | nil =>
    rw [show jsStartsWith s "AW" = false from by
      unfold jsStartsWith
      rw [hd]
      rfl]
    rfl
  | cons c cs =>
    rw [hd] at h
    simp only [List.head?] at h
    have hnA : jsStartsWith s "AW" = false := by
      unfold jsStartsWith
      rw [hd]
      by_cases hca : (('A' : Char) == c) = true
      · have : c = 'A' := (beq_iff_eq.mp hca).symm
        subst this
        exact absurd h (by decide)
      · simp [List.isPrefixOf, hca]
    rw [hnA]
    simp only [Bool.false_eq_true, if_false]
    rw [h]
    rfl

theorem foldl_preserve {α β : Type} (f : β → α → β) (P : β → Prop)
    (hpres : ∀ b a, P b → P (f b a)) (l : List α) (b : β) (h : P b) :
    P (l.foldl f b) := by
  induction l generalizing b with
  | nil => exact h
  | cons y ys ih =>
    rw [List.foldl_cons]
    exact ih _ (hpres b y h)

theorem foldl_establish {α β : Type} (f : β → α → β) (P : β → Prop)
    (hpres : ∀ b a, P b → P (f b a)) (l : List α) (x : α) (hx : x ∈ l)
    (hest : ∀ b, P (f b x)) : ∀ b, P (l.foldl f b) := by
  induction l with
  | nil => cases hx
  | cons y ys ih =>
    intro b
    rw [List.foldl_cons]
    rcases List.mem_cons.mp hx with heq | hmem
    · subst heq
      exact foldl_preserve f P hpres ys _ (hest b)
    · exact ih hmem _

theorem recountType_buildings (T : List (String × TrackInfo)) (ti : TypeInfo) :
    (recountType T ti).buildings = ti.buildings := by
  unfold recountType
  split <;> rfl

theorem stepEvent_pres_c10 (pe : ProcessedEvent) (x : String) (isLive : Bool)
    (rn b : String) (i : Nat) (acc : AggState × DayInfo) (xe' : XmlEvent)
    (hQ : x ∈ acc.2.buildings ∧
      ∀ ti, lookupA acc.1.types pe.type = some ti → x ∈ ti.buildings) :
    x ∈ (stepEvent isLive rn b i acc xe').2.buildings ∧
      ∀ ti, lookupA (stepEvent isLive rn b i acc xe').1.types pe.type = some ti →
        x ∈ ti.buildings := by
  unfold stepEvent
  cases hp' : processEvent xe' isLive rn i with
  | none => exact hQ
  | some ev' =>
    constructor
    · rw [applyEvent_snd]
      exact mem_addSet_of_mem _ _ _ hQ.1
    · intro ti hti
      rw [applyEvent_fst_types] at hti
      by_cases hpres : (lookupA acc.1.types ev'.type).isSome = true
      · rw [if_pos hpres, lookupA_updA] at hti
        by_cases heq : pe.type = ev'.type
        · rw [if_pos heq] at hti
          cases hl : lookupA acc.1.types pe.type with
          | none =>
            rw [hl] at hti
            exact absurd hti (by simp)
          | some ti0 =>
            rw [hl] at hti
            injection hti with h1
            rw [← h1]
            unfold typeBump
            exact mem_addSet_of_mem _ _ _ (hQ.2 ti0 hl)
        · rw [if_neg heq] at hti
          exact hQ.2 ti hti
      · rw [if_neg hpres] at hti
        exact hQ.2 ti hti

theorem stepEvent_estab_c10 (pe : ProcessedEvent) (isLive : Bool)
    (rn b : String) (i : Nat) (xe : XmlEvent)
    (hp : processEvent xe isLive rn i = some pe) (acc : AggState × DayInfo) :
    b ∈ (stepEvent isLive rn b i acc xe).2.buildings ∧
      ∀ ti, lookupA (stepEvent isLive rn b i acc xe).1.types pe.type = some ti →
        b ∈ ti.buildings := by
  unfold stepEvent
  rw [hp]
  constructor
  · rw [applyEvent_snd]
    exact mem_addSet_self _ _
  · intro ti hti
    rw [applyEvent_fst_types] at hti
    by_cases hpres : (lookupA acc.1.types pe.type).isSome = true
    · rw [if_pos hpres, lookupA_updA, if_pos rfl] at hti
      cases hl : lookupA acc.1.types pe.type with
      | none =>
        rw [hl] at hti
        exact absurd hti (by simp)
      | some ti0 =>
        rw [hl] at hti
        injection hti with h1
        rw [← h1]
        unfold typeBump
        exact mem_addSet_self _ _
    · rw [if_neg hpres] at hti
      refine absurd ?_ hpres
      rw [hti]
      rfl

theorem processRoom_pres_c10 (pe : ProcessedEvent) (x : String) (i : Nat)
    (acc : AggState × DayInfo) (r' : Room)
    (hQ : x ∈ acc.2.buildings ∧
      ∀ ti, lookupA acc.1.types pe.type = some ti → x ∈ ti.buildings) :
    x ∈ (processRoom i acc r').2.buildings ∧
      ∀ ti, lookupA (processRoom i acc r').1.types pe.type = some ti →
        x ∈ ti.buildings := by
  unfold processRoom
  dsimp only
  have hfold :=
    foldl_preserve (stepEvent (i == 1) (getRoomName r'.name)
        (inferBuildingId (getRoomName r'.name)) i)
      (fun acc' => x ∈ acc'.2.buildings ∧
        ∀ ti, lookupA acc'.1.types pe.type = some ti → x ∈ ti.buildings)
      (fun b a h => stepEvent_pres_c10 pe x _ _ _ i b a h)
      (normalizeEvents r'.event)
      (roomCreate (getRoomName r'.name) r'.slug acc.1, acc.2)
      ⟨hQ.1, fun ti h => hQ.2 ti (by rwa [roomCreate_types] at h)⟩
  refine ⟨hfold.1, ?_⟩
  rw [buildingUpdate_types]
  exact hfold.2

theorem processRoom_estab_c10 (pe : ProcessedEvent) (i : Nat) (r : Room)
    (xe : XmlEvent) (hx : xe ∈ normalizeEvents r.event)
    (hp : processEvent xe (i == 1) (getRoomName r.name) i = some pe)
    (acc : AggState × DayInfo) :
    inferBuildingId (getRoomName r.name) ∈ (processRoom i acc r).2.buildings ∧
      ∀ ti, lookupA (processRoom i acc r).1.types pe.type = some ti →
        inferBuildingId (getRoomName r.name) ∈ ti.buildings := by
  unfold processRoom
  dsimp only
  have hfold :=
    foldl_establish (stepEvent (i == 1) (getRoomName r.name)
        (inferBuildingId (getRoomName r.name)) i)
      (fun acc' => inferBuildingId (getRoomName r.name) ∈ acc'.2.buildings ∧
        ∀ ti, lookupA acc'.1.types pe.type = some ti →
          inferBuildingId (getRoomName r.name) ∈ ti.buildings)
      (fun b a h => stepEvent_pres_c10 pe _ _ _ _ i b a h)
      (normalizeEvents r.event) xe hx
      (fun b => stepEvent_estab_c10 pe _ _ _ i xe hp b)
      (roomCreate (getRoomName r.name) r.slug acc.1, acc.2)
  refine ⟨hfold.1, ?_⟩
  rw [buildingUpdate_types]
  exact hfold.2

theorem dayRoomsFold_estab_c10 (pe : ProcessedEvent) (st : AggState) (d : Day)
    (r : Room) (hr : r ∈ d.room) (xe : XmlEvent)
    (hx : xe ∈ normalizeEvents r.event)
    (hp : processEvent xe (d.index == 1) (getRoomName r.name) d.index = some pe) :
    inferBuildingId (getRoomName r.name) ∈ (dayRoomsFold st d).2.buildings ∧
      ∀ ti, lookupA (dayRoomsFold st d).1.types pe.type = some ti →
        inferBuildingId (getRoomName r.name) ∈ ti.buildings := by
  unfold dayRoomsFold
  rw [if_pos (List.length_pos.mpr (List.ne_nil_of_mem hr))]
  exact foldl_establish (processRoom d.index)
    (fun acc' => inferBuildingId (getRoomName r.name) ∈ acc'.2.buildings ∧
      ∀ ti, lookupA acc'.1.types pe.type = some ti →
        inferBuildingId (getRoomName r.name) ∈ ti.buildings)
    (fun b a h => processRoom_pres_c10 pe _ d.index b a h)
    d.room r hr
    (fun b => processRoom_estab_c10 pe d.index r xe hx hp b)
    (st, dayInit d)

theorem processDay_days (st : AggState) (d : Day) :
    (processDay st d).days =
      setA (dayRoomsFold st d).1.days d.index
        (finalizeDayInfo (dayRoomsFold st d).2) := by
  unfold processDay
  dsimp only
  split <;> rfl

theorem processDay_types_eq (st : AggState) (d : Day) :
    (processDay st d).types =
      if ((dayRoomsFold st d).1.types).length > 0 then
        ((dayRoomsFold st d).1.types).map
          (fun kv => (kv.1, recountType (dayRoomsFold st d).1.tracks kv.2))
      else (dayRoomsFold st d).1.types := by
  unfold processDay
  dsimp only
  split
  · rfl
  · rfl

/-- C10 (implicit behaviour): a room whose display name does not begin
with an uppercase letter gets the empty string as its inferred building
id; when it hosts an accepted event, that empty string sits in the Day's
building dedup set (and in the event's session type's set), and the Day's
finalized `buildingCount` is the size of a set containing it — the
unrecognized building is counted as one distinct building. -/
theorem lowercase_room_counts_as_building (st : AggState) (d : Day) (r : Room)
    (xe : XmlEvent) (pe : ProcessedEvent) (hr : r ∈ d.room)
    (hu : headIsUpper (getRoomName r.name) = false)
    (hx : xe ∈ normalizeEvents r.event)
    (hp : processEvent xe (d.index == 1) (getRoomName r.name) d.index = some pe) :
    inferBuildingId (getRoomName r.name) = "" ∧
    (∃ di, lookupA (processDay st d).days d.index = some di ∧
      "" ∈ di.buildings ∧ di.buildingCount = di.buildings.length) ∧
    (∀ ti, lookupA (processDay st d).types pe.type = some ti →
      "" ∈ ti.buildings) := by
  have hb : inferBuildingId (getRoomName r.name) = "" := inferBuildingId_empty _ hu
  obtain ⟨h1, h2⟩ := dayRoomsFold_estab_c10 pe st d r hr xe hx hp
  rw [hb] at h1 h2
  refine ⟨hb, ⟨finalizeDayInfo (dayRoomsFold st d).2, ?_, ?_, rfl⟩, ?_⟩
  · rw [processDay_days]
    exact lookupA_setA_self _ _ _
  · exact h1
  · intro ti hti
    rw [processDay_types_eq] at hti
    by_cases hl : ((dayRoomsFold st d).1.types).length > 0
    · rw [if_pos hl] at hti
      rw [lookupA_mapval] at hti
      cases hl2 : lookupA (dayRoomsFold st d).1.types pe.type with
      | none =>
        rw [hl2] at hti
        exact absurd hti (by simp)
      | some ti0 =>
        rw [hl2] at hti
        injection hti with h3
        rw [← h3, recountType_buildings]
        exact h2 ti0 hl2
    · rw [if_neg hl] at hti
      exact h2 ti hti

/-- C10 witness: the lowercase-room behaviour on the concrete one-day
document, starting from the seeded initial state. -/
theorem lowercase_room_counts_as_building_witness :
    inferBuildingId (getRoomName lcRoom.name) = "" ∧
    (∃ di, lookupA (processDay initState lcDay).days lcDay.index = some di ∧
      "" ∈ di.buildings ∧ di.buildingCount = di.buildings.length) ∧
    (∀ ti, lookupA (processDay initState lcDay).types peLower.type = some ti →
      "" ∈ ti.buildings) :=
  lowercase_room_counts_as_building initState lcDay lcRoom
    (evtFixture "e7" "Some talk" "devroom" "Go") peLower
    (by decide) (by decide) (by decide) (by decide)
